import Mathlib

/-!
# EcoSnap product service: scraping pipeline and fallback resolver

A shallow embedding of `backend/src/services/productService.js`
(`scrapeProductDetails` and the scrape/fallback part of `analyzeProduct`),
followed by the properties established about it.

JavaScript strings are represented by `String`; the string built-ins used by
the service (`trim`, `toLowerCase`, `includes`, `match`) are defined below on
the character list of a string.  The outside world (HTTP replies, the markup
selected by each source's selectors, the generative model's replies,
`JSON.parse`, and the engine's bound on the arguments of one call) is an
explicit input of the embedded functions.
-/

set_option autoImplicit false

namespace EcoSnap

/-! ## String built-ins -/

/-- White space and line terminators removed by `String.prototype.trim`. -/
def isWhiteSpace (c : Char) : Bool :=
  let n := c.toNat
  n == 0x09 || n == 0x0A || n == 0x0B || n == 0x0C || n == 0x0D || n == 0x20 ||
  n == 0xA0 || n == 0x1680 || (0x2000 ≤ n && n ≤ 0x200A) || n == 0x2028 ||
  n == 0x2029 || n == 0x202F || n == 0x205F || n == 0x3000 || n == 0xFEFF

/-- Drop leading white space. -/
def trimStart (cs : List Char) : List Char :=
  cs.dropWhile isWhiteSpace

/-- Drop leading and trailing white space of a character list. -/
def trimChars (cs : List Char) : List Char :=
  (trimStart (trimStart cs).reverse).reverse

/-- The `text.trim()` of the service. -/
def trim (s : String) : String :=
  ⟨trimChars s.data⟩

/-- The `text.toLowerCase()` of the service (case mapping of the letters A-Z;
other characters are left as they are). -/
def toLowerCase (s : String) : String :=
  ⟨s.data.map Char.toLower⟩

/-- Whether `pat` occurs in `cs` as a contiguous run of characters. -/
def includesChars (pat : List Char) : List Char → Bool
  | [] => pat.isEmpty
  | c :: cs => pat.isPrefixOf (c :: cs) || includesChars pat cs

/-- The `text.includes(pat)` of the service, on strings. -/
def includes (s pat : String) : Bool :=
  includesChars pat.data s.data

/-- The alternatives of the regular expression
`/(plastic|cardboard|glass|metal|paper)/g`, in the order they are tried. -/
def materialTokens : List String :=
  ["plastic", "cardboard", "glass", "metal", "paper"]

/-- The alternative matched at the head of `cs`, if any. -/
def tokenAt (cs : List Char) : Option String :=
  materialTokens.find? (fun t => t.data.isPrefixOf cs)

/-- Global regular-expression scan: `skip` characters of the current match
remain to be passed over; otherwise a match is attempted at the head and the
scan resumes right after it. -/
def matchMaterialsAux : Nat → List Char → List String
  | _, [] => []
  | skip + 1, _ :: cs => matchMaterialsAux skip cs
  | 0, c :: cs =>
    match tokenAt (c :: cs) with
    | some t => t :: matchMaterialsAux (t.length - 1) cs
    | none => matchMaterialsAux 0 cs

/-- The `text.match(/(plastic|cardboard|glass|metal|paper)/g)` of the service:
all non-overlapping matches from left to right.  The empty list stands for
the `null` that `match` returns when nothing matches (nothing is pushed in
either case). -/
def matchMaterials (s : String) : List String :=
  matchMaterialsAux 0 s.data

/-! ## Data model -/

/-- One entry of the `sources` array: the search URL up to the encoded
product name, and the three selectors. -/
structure Source where
  url : String
  ingredients : String
  productInfo : String
  packaging : String

/-- The `sources` array of `scrapeProductDetails`, in order. -/
def sources : List Source :=
  [ { url := "https://www.amazon.in/s?k="
      ingredients := "#feature-bullets .a-list-item, #productDetails_techSpec_section_1 .prodDetAttrValue, #productDetails_db_sections .content"
      productInfo := "#productDescription p, #feature-bullets .a-list-item"
      packaging := "#important-information .a-section, #sustainability-section" },
    { url := "https://www.flipkart.com/search?q="
      ingredients := "._2418kt, ._3nUwn8, .RmoJUa"
      productInfo := "._1mXcCf, ._2-riNZ"
      packaging := "._2-N8zT, ._1UhVsV" },
    { url := "https://www.nykaa.com/search/result/?q="
      ingredients := ".product-ingredients-content, .product-description p"
      productInfo := ".product-description, .product-overview"
      packaging := ".product-overview p" },
    { url := "https://www.bigbasket.com/ps/?q="
      ingredients := ".pd-ingredient-content, .mt-20 p"
      productInfo := ".pd-description-content, .pd-about-content"
      packaging := ".pd-about-content" },
    { url := "https://www.1mg.com/search/all?name="
      ingredients := ".DrugOverview__description___1Jwqq, .ProductDescription__description-content___A_qCZ"
      productInfo := ".DrugOverview__content___22ZBX, .ProductDescription__description-content___A_qCZ"
      packaging := ".PackSizeLabel__pack-size___3jScl" },
    { url := "https://incidecoder.com/search?query="
      ingredients := ".ingredients-list, .ingred-list"
      productInfo := ".product-description"
      packaging := ".product-details" } ]

/-- The `packaging` member of `scrapedData`. -/
structure Packaging where
  materials : List String
  recyclable : Bool
deriving DecidableEq, Repr

/-- The `scrapedData` accumulator. -/
structure ScrapedData where
  ingredients : List String
  packaging : Packaging
  additionalInfo : List String
deriving DecidableEq, Repr

/-- The initial value of `scrapedData`. -/
def emptyData : ScrapedData :=
  { ingredients := [], packaging := { materials := [], recyclable := false },
    additionalInfo := [] }

/-- What a fetched page offers to one source's selectors: the `.text()` of the
elements matched by the ingredients, productInfo and packaging selectors, in
document order. -/
structure Fragments where
  ingredients : List String
  productInfo : List String
  packaging : List String
deriving DecidableEq, Repr

/-- Outcome of the `try` block of one source: `failed` when `axios.get` (or
the loading of the reply) throws, `ok` with the matched element texts
otherwise. -/
inductive Fetch where
  | failed
  | ok (page : Fragments)
deriving DecidableEq, Repr

/-! ## The source loop of `scrapeProductDetails` -/

/-- Body of the ingredients `.each` callback. -/
def addIngredient (d : ScrapedData) (raw : String) : ScrapedData :=
  let text := trim raw
  if text ≠ "" ∧ text ∉ d.ingredients then
    { d with ingredients := d.ingredients ++ [text] }
  else d

/-- Body of the product-info `.each` callback. -/
def addInfo (d : ScrapedData) (raw : String) : ScrapedData :=
  let text := trim raw
  if text ≠ "" ∧ text ∉ d.additionalInfo then
    { d with additionalInfo := d.additionalInfo ++ [text] }
  else d

/-- What the JavaScript engine contributes to line 107: the largest number of
arguments that a call `push(...materials)` accepts.  A spread of more
elements throws a `RangeError` before anything is pushed.  The bound depends
on the engine and its stack size; a call with a single argument is always
accepted. -/
structure Engine where
  maxArgs : Nat
  one_le_maxArgs : 1 ≤ maxArgs

/-- Where a piece of the `try` block of one source ends: the accumulator as it
has been left, and whether control went to the inner `catch`. -/
structure Pass where
  data : ScrapedData
  thrown : Bool
deriving DecidableEq, Repr

/-- Body of the packaging `.each` callback.  The flag is set first (line 102);
the spread of line 107 then throws when the match array is too long for the
engine, leaving the materials as they were. -/
def addPackaging (e : Engine) (d : ScrapedData) (raw : String) : Pass :=
  let text := toLowerCase (trim raw)
  let d1 : ScrapedData :=
    if includes text "recycl" then
      { d with packaging := { d.packaging with recyclable := true } }
    else d
  if includes text "plastic" || includes text "cardboard" || includes text "glass" then
    if (matchMaterials text).length ≤ e.maxArgs then
      { data := { d1 with packaging :=
          { d1.packaging with materials := d1.packaging.materials ++ matchMaterials text } }
        thrown := false }
    else { data := d1, thrown := true }
  else { data := d1, thrown := false }

/-- The packaging `.each` loop: a throw of the callback ends it, and the
elements after the throwing one are not visited. -/
def packagingPass (e : Engine) : ScrapedData → List String → Pass
  | d, [] => { data := d, thrown := false }
  | d, raw :: rest =>
    if (addPackaging e d raw).thrown then addPackaging e d raw
    else packagingPass e (addPackaging e d raw).data rest

/-- The three `.each` passes over one loaded page (lines 83-110). -/
def processPage (e : Engine) (d : ScrapedData) (p : Fragments) : Pass :=
  let d1 := p.ingredients.foldl addIngredient d
  let d2 := p.productInfo.foldl addInfo d1
  packagingPass e d2 p.packaging

/-- The `try` block of one source up to line 110: a failed request goes to
the `catch` with the accumulator untouched, a loaded page goes through the
three passes. -/
def processSource (e : Engine) (d : ScrapedData) : Fetch → Pass
  | .failed => { data := d, thrown := true }
  | .ok p => processPage e d p

/-- State of the `for` loop: the accumulator and the indices of the sources
whose URL has been requested so far, in request order. -/
structure ScrapeRun where
  data : ScrapedData
  fetched : List Nat
deriving DecidableEq, Repr

/-- The `for (const source of sources)` loop: `fetch i` is the outcome of
source `i`; the sources still to visit are the list argument and `i` is the
index of its head.  After a throw the inner `catch` continues with the next
source, whatever the accumulator holds; otherwise the test of line 112
breaks the loop as soon as there are ingredients. -/
def scrapeLoop (e : Engine) (fetch : Nat → Fetch) :
    List Source → Nat → ScrapeRun → ScrapeRun
  | [], _, st => st
  | _ :: rest, i, st =>
    if (processSource e st.data (fetch i)).thrown then
      scrapeLoop e fetch rest (i + 1)
        { data := (processSource e st.data (fetch i)).data, fetched := st.fetched ++ [i] }
    else if (processSource e st.data (fetch i)).data.ingredients.length > 0 then
      { data := (processSource e st.data (fetch i)).data, fetched := st.fetched ++ [i] }
    else
      scrapeLoop e fetch rest (i + 1)
        { data := (processSource e st.data (fetch i)).data, fetched := st.fetched ++ [i] }

/-- The whole loop over the registry, from the empty accumulator. -/
def scrapeRun (e : Engine) (fetch : Nat → Fetch) : ScrapeRun :=
  scrapeLoop e fetch sources 0 { data := emptyData, fetched := [] }

/-- Model of `scrapeProductDetails(productName)`, with `none` for the `null`
of the outer `catch`.  The product name only enters the URLs: `nameEncodes`
tells whether `encodeURIComponent(productName)` returns (it throws a
`URIError` on a lone surrogate, while the `sources` array is being built).
When it throws, the outer `catch` returns `null`; otherwise every failure is
handled by the inner `catch` and the loop reaches `return scrapedData`. -/
def scrapeProductDetails (e : Engine) (nameEncodes : Bool) (fetch : Nat → Fetch) :
    Option ScrapedData :=
  if nameEncodes then some (scrapeRun e fetch).data else none

/-- The sources requested by `scrapeProductDetails`, in request order; none
when the `sources` array could not be built. -/
def fetchedSources (e : Engine) (nameEncodes : Bool) (fetch : Nat → Fetch) : List Nat :=
  if nameEncodes then (scrapeRun e fetch).fetched else []

/-! ## The fallback resolver of `analyzeProduct` -/

/-- Values produced by `JSON.parse` and held by the fields of the object that
`analyzeProduct` returns. -/
inductive JSValue where
  | undefined
  | null
  | bool (b : Bool)
  | num (literal : String)
  | str (s : String)
  | arr (items : List JSValue)
  | obj (fields : List (String × JSValue))

/-- Property read `v.key` on a parsed value.  `JSON.parse` is only applied to
spans that start with an opening brace, so it yields an object whenever it
succeeds; a missing property reads as `undefined`. -/
def JSValue.prop : JSValue → String → JSValue
  | .obj fields, key => (fields.lookup key).getD .undefined
  | _, _ => .undefined

/-- A string array of the accumulator as a value. -/
def ofStrings (xs : List String) : JSValue :=
  .arr (xs.map .str)

/-- The `packaging` object of the accumulator as a value. -/
def ofPackaging (p : Packaging) : JSValue :=
  .obj [("materials", ofStrings p.materials), ("recyclable", .bool p.recyclable)]

/-- Failures thrown inside `analyzeProduct`. -/
inductive JSError where
  | requestFailed
  | invalidResponseFormat
  | typeError
  | syntaxError
deriving DecidableEq, Repr

/-- The span matched by `/\{[\s\S]*\}/` in a character list: from the first
opening brace to the last closing brace after it (the star is greedy), when
there is one. -/
def braceSpan (cs : List Char) : Option (List Char) :=
  match cs.dropWhile (fun c => c != '{') with
  | [] => none
  | c :: rest =>
    if '}' ∈ rest then
      some ((c :: rest).reverse.dropWhile (fun x => x != '}')).reverse
    else none

/-- The `text.match(/\{[\s\S]*\}/)` of the service: `none` is `null`, and
`some span` is element `[0]` of the match. -/
def extractJson (text : String) : Option String :=
  (braceSpan text.data).map String.mk

/-- Lines 153-162: the parser of the identification reply, with its guard
against a reply without a brace span. -/
def parseBasicInfo (parse : String → Option JSValue) (reply : String) :
    Except JSError JSValue :=
  let text := trim reply
  match extractJson text with
  | none => .error .invalidResponseFormat
  | some span =>
    match parse span with
    | none => .error .syntaxError
    | some v => .ok v

/-- Lines 189-191: the parser of the fallback reply,
`JSON.parse(detailText.match(/\{[\s\S]*\}/)[0])`; indexing the `null` of a
failed match throws a `TypeError`. -/
def parseDetail (parse : String → Option JSValue) (reply : String) :
    Except JSError JSValue :=
  let detailText := trim reply
  match extractJson detailText with
  | none => .error .typeError
  | some span =>
    match parse span with
    | none => .error .syntaxError
    | some v => .ok v

/-- The object returned by `analyzeProduct`; `additionalInfo = none` means
that the object has no such field. -/
structure Analysis where
  name : JSValue
  brand : JSValue
  ingredients : JSValue
  packaging : JSValue
  additionalInfo : Option JSValue

/-- What one call of `analyzeProduct` does after identification: whether the
second generative call was issued, and the value returned or error thrown. -/
structure AnalyzeRun where
  fallbackCalled : Bool
  result : Except JSError Analysis

/-- The fallback branch (lines 169-198): `detail` is the text of the
generative reply, `none` when the call rejects. -/
def fallbackBranch (parse : String → Option JSValue) (basicInfo : JSValue)
    (detail : Option String) : AnalyzeRun :=
  match detail with
  | none => { fallbackCalled := true, result := .error .requestFailed }
  | some reply =>
    match parseDetail parse reply with
    | .error e => { fallbackCalled := true, result := .error e }
    | .ok detailJson =>
      { fallbackCalled := true
        result := .ok
          { name := basicInfo.prop "name"
            brand := basicInfo.prop "brand"
            ingredients := detailJson.prop "ingredients"
            packaging := detailJson.prop "packaging"
            additionalInfo := none } }

/-- Lines 167-208 of `analyzeProduct`: the choice between the scraped
accumulator and the fallback, given the value `scraped` returned by
`scrapeProductDetails` (`none` for `null`). -/
def resolveAttributes (parse : String → Option JSValue) (basicInfo : JSValue)
    (scraped : Option ScrapedData) (detail : Option String) : AnalyzeRun :=
  match scraped with
  | none => fallbackBranch parse basicInfo detail
  | some d =>
    if d.ingredients.length = 0 then fallbackBranch parse basicInfo detail
    else
      { fallbackCalled := false
        result := .ok
          { name := basicInfo.prop "name"
            brand := basicInfo.prop "brand"
            ingredients := ofStrings d.ingredients
            packaging := ofPackaging d.packaging
            additionalInfo := some (ofStrings d.additionalInfo) } }

/-- The replies of the outside world during one call of `analyzeProduct`:
whether the image download succeeds, the text of the identification reply
and of the fallback reply (`none` when the call rejects or the text of the
reply cannot be read), whether the product
name of the identification reply can be URL-encoded, and the outcome of each
source. -/
structure World where
  image : Bool
  basicText : Option String
  nameEncodes : Bool
  fetch : Nat → Fetch
  detailText : Option String

/-- Model of `analyzeProduct(imageUrl)`; `parse` is `JSON.parse`, with `none`
for a thrown `SyntaxError`. -/
def analyzeProduct (e : Engine) (parse : String → Option JSValue) (w : World) :
    AnalyzeRun :=
  if w.image then
    match w.basicText with
    | none => { fallbackCalled := false, result := .error .requestFailed }
    | some reply =>
      match parseBasicInfo parse reply with
      | .error err => { fallbackCalled := false, result := .error err }
      | .ok basicInfo =>
        resolveAttributes parse basicInfo
          (scrapeProductDetails e w.nameEncodes w.fetch) w.detailText
  else { fallbackCalled := false, result := .error .requestFailed }

/-! ## The wording of the specification for the span extraction -/

/-- The characters up to and including the brace that closes nesting depth
`depth`, counting braces only. -/
def closeAt : Nat → List Char → Option (List Char)
  | _, [] => none
  | depth, c :: cs =>
    if c = '{' then (closeAt (depth + 1) cs).map (fun s => c :: s)
    else if c = '}' then
      if depth ≤ 1 then some [c] else (closeAt (depth - 1) cs).map (fun s => c :: s)
    else (closeAt depth cs).map (fun s => c :: s)

/-- The specification's "first balanced brace span" of a text: the span that
starts at the first opening brace whose nesting is closed later in the text
and ends at the brace closing it. -/
def firstBalancedSpan : List Char → Option (List Char)
  | [] => none
  | c :: cs =>
    if c = '{' then
      match closeAt 1 cs with
      | some s => some (c :: s)
      | none => firstBalancedSpan cs
    else firstBalancedSpan cs

/-! ## Notions used to state the properties -/

/-- The fragments offered by a list of element texts: each text trimmed, the
empty ones dropped. -/
def fragments (raws : List String) : List String :=
  (raws.map trim).filter (fun t => t ≠ "")

/-- Merge of one fragment into a deduplicated list. -/
def mergeText (xs : List String) (t : String) : List String :=
  if t ∈ xs then xs else xs ++ [t]

/-- The packaging callback on a text already trimmed. -/
def classifyText (e : Engine) (d : ScrapedData) (t : String) : Pass :=
  let text := toLowerCase t
  let d1 : ScrapedData :=
    if includes text "recycl" then
      { d with packaging := { d.packaging with recyclable := true } }
    else d
  if includes text "plastic" || includes text "cardboard" || includes text "glass" then
    if (matchMaterials text).length ≤ e.maxArgs then
      { data := { d1 with packaging :=
          { d1.packaging with materials := d1.packaging.materials ++ matchMaterials text } }
        thrown := false }
    else { data := d1, thrown := true }
  else { data := d1, thrown := false }

/-- The packaging loop on texts already trimmed. -/
def classifyPass (e : Engine) : ScrapedData → List String → Pass
  | d, [] => { data := d, thrown := false }
  | d, t :: rest =>
    if (classifyText e d t).thrown then classifyText e d t
    else classifyPass e (classifyText e d t).data rest

/-- An engine that accepts up to 65535 arguments in one call. -/
def smallEngine : Engine :=
  { maxArgs := 65535, one_le_maxArgs := by decide }

/-- The characters of the word "plastic" written `n` times in a row. -/
def plasticChars : Nat → List Char
  | 0 => []
  | n + 1 => "plastic".data ++ plasticChars n

/-- A packaging text that mentions plastic `n` times. -/
def plasticRun (n : Nat) : String :=
  ⟨plasticChars n⟩

/-- A world for engine `e`: the first page offers the ingredient "Water" and
a packaging text with one more mention of plastic than a call accepts, the
second page offers the ingredient "Salt", and the other sources fail. -/
def fetchOversized (e : Engine) (i : Nat) : Fetch :=
  if i = 0 then
    .ok { ingredients := ["Water"], productInfo := ["Info"],
          packaging := [plasticRun (e.maxArgs + 1)] }
  else if i = 1 then
    .ok { ingredients := ["Salt"], productInfo := [], packaging := [] }
  else .failed

/-- A world for engine `e`: the first page offers no ingredient and two
packaging texts, the oversized one and then "recyclable"; the other sources
fail. -/
def fetchRecyclableLate (e : Engine) (i : Nat) : Fetch :=
  if i = 0 then
    .ok { ingredients := [], productInfo := [],
          packaging := [plasticRun (e.maxArgs + 1), "recyclable"] }
  else .failed

/-- The page of the scenario with white space around its texts and two
texts that are blank. -/
def pageSpaced : Fragments :=
  { ingredients := ["  Water, Glycerin\n", " "], productInfo := ["\t"],
    packaging := [" recyclable plastic bottle "] }

/-- A world in which the first source fails and the second serves
`pageSpaced`. -/
def fetchSpaced (i : Nat) : Fetch :=
  if i = 1 then .ok pageSpaced else .failed

/-- An accumulator whose recyclable flag is set. -/
def recycledData : ScrapedData :=
  { ingredients := [], packaging := { materials := [], recyclable := true },
    additionalInfo := [] }

/-- A fallback reply made of a JSON object followed by a note in braces. -/
def noteReply : String :=
  "\x7b\"ingredients\":[],\"packaging\":\x7b\"materials\":[],\"recyclable\":true\x7d\x7d note: \x7bx\x7d"

/-- The first balanced brace span of `noteReply`. -/
def noteObject : String :=
  "\x7b\"ingredients\":[],\"packaging\":\x7b\"materials\":[],\"recyclable\":true\x7d\x7d"

/-- A stand-in for `JSON.parse` on the two spans of `noteReply`: it accepts
`noteObject` (as the object it denotes) and rejects every other text, among
them `noteReply`, which is not JSON. -/
def parseNote (s : String) : Option JSValue :=
  if s = noteObject then
    some (.obj [("ingredients", .arr []),
      ("packaging", .obj [("materials", .arr []), ("recyclable", .bool true)])])
  else none

/-! ## Lemmas on the callbacks and on the loop -/

theorem addIngredient_packaging (d : ScrapedData) (raw : String) :
    (addIngredient d raw).packaging = d.packaging := by
  simp only [addIngredient]; split <;> rfl

theorem addIngredient_additionalInfo (d : ScrapedData) (raw : String) :
    (addIngredient d raw).additionalInfo = d.additionalInfo := by
  simp only [addIngredient]; split <;> rfl

theorem addInfo_ingredients (d : ScrapedData) (raw : String) :
    (addInfo d raw).ingredients = d.ingredients := by
  simp only [addInfo]; split <;> rfl

theorem addInfo_packaging (d : ScrapedData) (raw : String) :
    (addInfo d raw).packaging = d.packaging := by
  simp only [addInfo]; split <;> rfl

theorem addPackaging_ingredients (e : Engine) (d : ScrapedData) (raw : String) :
    (addPackaging e d raw).data.ingredients = d.ingredients := by
  simp only [addPackaging]; split <;> split <;> (try split) <;> rfl

theorem addPackaging_additionalInfo (e : Engine) (d : ScrapedData) (raw : String) :
    (addPackaging e d raw).data.additionalInfo = d.additionalInfo := by
  simp only [addPackaging]; split <;> split <;> (try split) <;> rfl

theorem addPackaging_recyclable (e : Engine) (d : ScrapedData) (raw : String) :
    (addPackaging e d raw).data.packaging.recyclable =
      (d.packaging.recyclable || includes (toLowerCase (trim raw)) "recycl") := by
  simp only [addPackaging]
  split <;> split <;> (try split) <;> simp_all

/-- A fold that leaves a projection unchanged at each step leaves it unchanged. -/
theorem foldl_keeps {α β : Type} (f : ScrapedData → α → ScrapedData) (g : ScrapedData → β)
    (h : ∀ d a, g (f d a) = g d) (xs : List α) (d : ScrapedData) :
    g (xs.foldl f d) = g d := by
  induction xs generalizing d with
  | nil => rfl
  | cons x xs ih => simp only [List.foldl_cons]; rw [ih, h]

theorem packagingPass_ingredients (e : Engine) (raws : List String) (d : ScrapedData) :
    (packagingPass e d raws).data.ingredients = d.ingredients := by
  induction raws generalizing d with
  | nil => rfl
  | cons x xs ih =>
    rw [packagingPass]
    split
    · exact addPackaging_ingredients e d x
    · rw [ih, addPackaging_ingredients]

theorem packagingPass_recyclable (e : Engine) (raws : List String) (d : ScrapedData)
    (h : d.packaging.recyclable = true) :
    (packagingPass e d raws).data.packaging.recyclable = true := by
  induction raws generalizing d with
  | nil => exact h
  | cons x xs ih =>
    have hx : (addPackaging e d x).data.packaging.recyclable = true := by
      rw [addPackaging_recyclable, h]; rfl
    rw [packagingPass]
    split
    · exact hx
    · exact ih _ hx

theorem processPage_ingredients (e : Engine) (d : ScrapedData) (p : Fragments) :
    (processPage e d p).data.ingredients =
      (p.ingredients.foldl addIngredient d).ingredients := by
  unfold processPage
  simp only
  rw [packagingPass_ingredients,
    foldl_keeps addInfo (fun d => d.ingredients) addInfo_ingredients]

theorem processPage_recyclable (e : Engine) (d : ScrapedData) (p : Fragments)
    (h : d.packaging.recyclable = true) :
    (processPage e d p).data.packaging.recyclable = true := by
  unfold processPage
  simp only
  apply packagingPass_recyclable
  rw [foldl_keeps addInfo (fun d => d.packaging) addInfo_packaging,
    foldl_keeps addIngredient (fun d => d.packaging) addIngredient_packaging]
  exact h

theorem addIngredient_nodup (d : ScrapedData) (raw : String)
    (h : d.ingredients.Nodup) : (addIngredient d raw).ingredients.Nodup := by
  simp only [addIngredient]
  split
  · next hc =>
    simp only
    rw [List.nodup_append]
    refine ⟨h, List.nodup_singleton _, ?_⟩
    intro a ha hb
    simp at hb
    subst hb
    exact hc.2 ha
  · exact h

theorem foldl_addIngredient_nodup (raws : List String) (d : ScrapedData)
    (h : d.ingredients.Nodup) : (raws.foldl addIngredient d).ingredients.Nodup := by
  induction raws generalizing d with
  | nil => exact h
  | cons x xs ih => exact ih _ (addIngredient_nodup d x h)

theorem processSource_nodup (e : Engine) (d : ScrapedData) (o : Fetch)
    (h : d.ingredients.Nodup) : (processSource e d o).data.ingredients.Nodup := by
  cases o with
  | failed => exact h
  | ok p =>
    show (processPage e d p).data.ingredients.Nodup
    rw [processPage_ingredients]
    exact foldl_addIngredient_nodup _ _ h

theorem processSource_recyclable (e : Engine) (d : ScrapedData) (o : Fetch)
    (h : d.packaging.recyclable = true) :
    (processSource e d o).data.packaging.recyclable = true := by
  cases o with
  | failed => exact h
  | ok p => exact processPage_recyclable e d p h

/-- A failed source moves the loop on with the accumulator untouched. -/
theorem scrapeLoop_failed (e : Engine) (fetch : Nat → Fetch) (s : Source)
    (rest : List Source) (i : Nat) (st : ScrapeRun) (h : fetch i = .failed) :
    scrapeLoop e fetch (s :: rest) i st =
      scrapeLoop e fetch rest (i + 1) { data := st.data, fetched := st.fetched ++ [i] } := by
  rw [scrapeLoop, h]
  simp [processSource]

/-- A page that goes through without a throw and leaves ingredients in the
accumulator ends the loop. -/
theorem scrapeLoop_break (e : Engine) (fetch : Nat → Fetch) (s : Source)
    (rest : List Source) (i : Nat) (st : ScrapeRun)
    (h1 : (processSource e st.data (fetch i)).thrown = false)
    (h2 : (processSource e st.data (fetch i)).data.ingredients ≠ []) :
    scrapeLoop e fetch (s :: rest) i st =
      { data := (processSource e st.data (fetch i)).data, fetched := st.fetched ++ [i] } := by
  rw [scrapeLoop, h1]
  have : 0 < (processSource e st.data (fetch i)).data.ingredients.length :=
    List.length_pos.mpr h2
  simp [this]

/-- A source whose `try` block ends in the `catch` moves the loop on. -/
theorem scrapeLoop_thrown (e : Engine) (fetch : Nat → Fetch) (s : Source)
    (rest : List Source) (i : Nat) (st : ScrapeRun)
    (h : (processSource e st.data (fetch i)).thrown = true) :
    scrapeLoop e fetch (s :: rest) i st =
      scrapeLoop e fetch rest (i + 1)
        { data := (processSource e st.data (fetch i)).data, fetched := st.fetched ++ [i] } := by
  rw [scrapeLoop, h]
  simp

/-- The loop over sources that all fail requests each of them and leaves the
accumulator as it was. -/
theorem scrapeLoop_all_failed (e : Engine) (fetch : Nat → Fetch) :
    ∀ (srcs : List Source) (i : Nat) (st : ScrapeRun),
      (∀ j, i ≤ j → j < i + srcs.length → fetch j = .failed) →
      scrapeLoop e fetch srcs i st =
        { data := st.data, fetched := st.fetched ++ List.range' i srcs.length } := by
  intro srcs
  induction srcs with
  | nil => intro i st _; simp [scrapeLoop]
  | cons s rest ih =>
    intro i st h
    have hi : fetch i = .failed := h i (Nat.le_refl i) (by simp)
    rw [scrapeLoop_failed e fetch s rest i st hi, ih (i + 1)]
    · simp [List.range']
    · intro j h1 h2
      exact h j (by omega) (by simp only [List.length_cons]; omega)

/-- A run of failed sources at the head of the loop is passed over. -/
theorem scrapeLoop_skip_failed (e : Engine) (fetch : Nat → Fetch) :
    ∀ (n : Nat) (srcs : List Source) (i : Nat) (st : ScrapeRun),
      n ≤ srcs.length → (∀ j, i ≤ j → j < i + n → fetch j = .failed) →
      scrapeLoop e fetch srcs i st =
        scrapeLoop e fetch (srcs.drop n) (i + n)
          { data := st.data, fetched := st.fetched ++ List.range' i n } := by
  intro n
  induction n with
  | zero => intro srcs i st _ _; simp
  | succ n ih =>
    intro srcs i st hn h
    cases srcs with
    | nil => simp at hn
    | cons s rest =>
      have hi : fetch i = .failed := h i (Nat.le_refl i) (by omega)
      rw [scrapeLoop_failed e fetch s rest i st hi,
        ih rest (i + 1) _ (by simpa using hn) (fun j h1 h2 => h j (by omega) (by omega))]
      simp [List.range', Nat.add_assoc, Nat.add_comm 1 n]

/-- The ingredients stay free of duplicates through the whole loop. -/
theorem scrapeLoop_nodup (e : Engine) (fetch : Nat → Fetch) :
    ∀ (srcs : List Source) (i : Nat) (st : ScrapeRun),
      st.data.ingredients.Nodup → (scrapeLoop e fetch srcs i st).data.ingredients.Nodup := by
  intro srcs
  induction srcs with
  | nil => intro i st h; simpa [scrapeLoop] using h
  | cons s rest ih =>
    intro i st h
    have hp := processSource_nodup e st.data (fetch i) h
    rw [scrapeLoop]
    split
    · exact ih _ _ hp
    · split
      · exact hp
      · exact ih _ _ hp

/-- A set recyclable flag survives the rest of the loop. -/
theorem scrapeLoop_recyclable (e : Engine) (fetch : Nat → Fetch) :
    ∀ (srcs : List Source) (i : Nat) (st : ScrapeRun),
      st.data.packaging.recyclable = true →
      (scrapeLoop e fetch srcs i st).data.packaging.recyclable = true := by
  intro srcs
  induction srcs with
  | nil => intro i st h; simpa [scrapeLoop] using h
  | cons s rest ih =>
    intro i st h
    have hp := processSource_recyclable e st.data (fetch i) h
    rw [scrapeLoop]
    split
    · exact ih _ _ hp
    · split
      · exact hp
      · exact ih _ _ hp

theorem fragments_cons (raw : String) (raws : List String) :
    fragments (raw :: raws) =
      if trim raw = "" then fragments raws else trim raw :: fragments raws := by
  by_cases h : trim raw = "" <;> simp [fragments, h]

theorem addIngredient_empty (d : ScrapedData) (raw : String) (h : trim raw = "") :
    addIngredient d raw = d := by
  simp [addIngredient, h]

theorem addInfo_empty (d : ScrapedData) (raw : String) (h : trim raw = "") :
    addInfo d raw = d := by
  simp [addInfo, h]

theorem addPackaging_empty (e : Engine) (d : ScrapedData) (raw : String)
    (h : trim raw = "") : addPackaging e d raw = { data := d, thrown := false } := by
  have e1 : includes (toLowerCase "") "recycl" = false := by decide
  have e2 : includes (toLowerCase "") "plastic" = false := by decide
  have e3 : includes (toLowerCase "") "cardboard" = false := by decide
  have e4 : includes (toLowerCase "") "glass" = false := by decide
  simp [addPackaging, h, e1, e2, e3, e4]

theorem foldl_addIngredient_fragments (raws : List String) (d : ScrapedData) :
    (raws.foldl addIngredient d).ingredients = (fragments raws).foldl mergeText d.ingredients := by
  induction raws generalizing d with
  | nil => rfl
  | cons raw raws ih =>
    rw [List.foldl_cons, ih, fragments_cons]
    by_cases h : trim raw = ""
    · rw [if_pos h, addIngredient_empty d raw h]
    · rw [if_neg h, List.foldl_cons]
      congr 1
      by_cases hm : trim raw ∈ d.ingredients <;> simp [addIngredient, mergeText, h, hm]

theorem foldl_addInfo_fragments (raws : List String) (d : ScrapedData) :
    (raws.foldl addInfo d).additionalInfo =
      (fragments raws).foldl mergeText d.additionalInfo := by
  induction raws generalizing d with
  | nil => rfl
  | cons raw raws ih =>
    rw [List.foldl_cons, ih, fragments_cons]
    by_cases h : trim raw = ""
    · rw [if_pos h, addInfo_empty d raw h]
    · rw [if_neg h, List.foldl_cons]
      congr 1
      by_cases hm : trim raw ∈ d.additionalInfo <;> simp [addInfo, mergeText, h, hm]

theorem packagingPass_fragments (e : Engine) (raws : List String) (d : ScrapedData) :
    packagingPass e d raws = classifyPass e d (fragments raws) := by
  induction raws generalizing d with
  | nil => rfl
  | cons raw raws ih =>
    rw [packagingPass, fragments_cons]
    by_cases h : trim raw = ""
    · rw [if_pos h, addPackaging_empty e d raw h]
      simpa using ih d
    · rw [if_neg h, classifyPass, ih]
      rfl

/-- The page result in terms of the fragments it offers. -/
theorem processPage_fragments (e : Engine) (d : ScrapedData) (p : Fragments) :
    processPage e d p =
      classifyPass e
        { ingredients := (fragments p.ingredients).foldl mergeText d.ingredients
          packaging := d.packaging
          additionalInfo := (fragments p.productInfo).foldl mergeText d.additionalInfo }
        (fragments p.packaging) := by
  unfold processPage
  simp only
  rw [packagingPass_fragments]
  congr 1
  have h1 := foldl_addIngredient_fragments p.ingredients d
  have h2 := foldl_keeps addIngredient (fun d => d.packaging) addIngredient_packaging
    p.ingredients d
  have h3 := foldl_keeps addIngredient (fun d => d.additionalInfo)
    addIngredient_additionalInfo p.ingredients d
  have h4 := foldl_addInfo_fragments p.productInfo (p.ingredients.foldl addIngredient d)
  have h5 := foldl_keeps addInfo (fun d => d.packaging) addInfo_packaging
    p.productInfo (p.ingredients.foldl addIngredient d)
  have h6 := foldl_keeps addInfo (fun d => d.ingredients) addInfo_ingredients
    p.productInfo (p.ingredients.foldl addIngredient d)
  simp only at h2 h3 h5 h6
  rw [← h1, ← h3, ← h4, ← h2, ← h5, ← h6]

/-! ### The oversized packaging text -/

theorem mem_plasticChars (n : Nat) (c : Char) (h : c ∈ plasticChars n) :
    c ∈ "plastic".data := by
  induction n with
  | zero => simp [plasticChars] at h
  | succ n ih =>
    rw [plasticChars, List.mem_append] at h
    rcases h with h | h
    · exact h
    · exact ih h

theorem dropWhile_all_false (p : Char → Bool) (cs : List Char)
    (h : ∀ c ∈ cs, p c = false) : cs.dropWhile p = cs := by
  cases cs with
  | nil => rfl
  | cons c cs => rw [List.dropWhile_cons, h c (List.mem_cons_self c cs)]; rfl

theorem trimChars_plasticChars (n : Nat) : trimChars (plasticChars n) = plasticChars n := by
  have hw : ∀ c ∈ plasticChars n, isWhiteSpace c = false := by
    intro c hc
    have hall : ∀ x ∈ "plastic".data, isWhiteSpace x = false := by decide
    exact hall c (mem_plasticChars n c hc)
  unfold trimChars trimStart
  rw [dropWhile_all_false _ _ hw,
    dropWhile_all_false _ _ (fun c hc => hw c (List.mem_reverse.mp hc)), List.reverse_reverse]

theorem map_toLower_plasticChars (n : Nat) :
    (plasticChars n).map Char.toLower = plasticChars n := by
  have hall : ∀ x ∈ "plastic".data, Char.toLower x = x := by decide
  have : ∀ c ∈ plasticChars n, Char.toLower c = c :=
    fun c hc => hall c (mem_plasticChars n c hc)
  calc (plasticChars n).map Char.toLower = (plasticChars n).map id :=
        List.map_congr_left this
    _ = plasticChars n := List.map_id _

/-- Trimming and lower-casing leave the oversized text as it is. -/
theorem lower_trim_plasticRun (n : Nat) :
    toLowerCase (trim (plasticRun n)) = plasticRun n := by
  simp only [toLowerCase, trim, plasticRun, trimChars_plasticChars, map_toLower_plasticChars]

theorem includesChars_absent (a : Char) (pat cs : List Char) (h : a ∉ cs) :
    includesChars (a :: pat) cs = false := by
  induction cs with
  | nil => rfl
  | cons c cs ih =>
    have hc : a ≠ c := fun heq => h (heq ▸ List.mem_cons_self a cs)
    have hcs : a ∉ cs := fun hm => h (List.mem_cons_of_mem c hm)
    simp [includesChars, List.isPrefixOf, hc, ih hcs]

theorem plasticRun_no_recycl (n : Nat) : includes (plasticRun n) "recycl" = false := by
  have hall : ∀ x ∈ "plastic".data, x ≠ 'r' := by decide
  exact includesChars_absent 'r' _ _
    (fun hm => hall 'r' (mem_plasticChars n 'r' hm) rfl)

theorem plasticRun_has_plastic (n : Nat) : includes (plasticRun (n + 1)) "plastic" = true := by
  show includesChars "plastic".data ("plastic".data ++ plasticChars n) = true
  simp [includesChars, List.isPrefixOf]

theorem matchMaterialsAux_plasticChars (n : Nat) :
    matchMaterialsAux 0 (plasticChars n) = List.replicate n "plastic" := by
  induction n with
  | zero => rfl
  | succ n ih =>
    show matchMaterialsAux 0 ('p' :: 'l' :: 'a' :: 's' :: 't' :: 'i' :: 'c' :: plasticChars n) = _
    have ht : tokenAt ('p' :: 'l' :: 'a' :: 's' :: 't' :: 'i' :: 'c' :: plasticChars n)
        = some "plastic" := by
      simp [tokenAt, materialTokens, List.find?, List.isPrefixOf]
    rw [matchMaterialsAux, ht]
    simp only
    have hl : "plastic".length - 1 = 6 := by decide
    rw [hl]
    simp only [matchMaterialsAux, ih, List.replicate_succ]

/-- The oversized text makes the packaging callback throw, with nothing
changed in the accumulator. -/
theorem addPackaging_plasticRun (e : Engine) (d : ScrapedData) :
    addPackaging e d (plasticRun (e.maxArgs + 1)) = { data := d, thrown := true } := by
  have hlen : (matchMaterials (plasticRun (e.maxArgs + 1))).length = e.maxArgs + 1 := by
    rw [matchMaterials]
    show (matchMaterialsAux 0 (plasticChars (e.maxArgs + 1))).length = _
    rw [matchMaterialsAux_plasticChars, List.length_replicate]
  simp only [addPackaging, lower_trim_plasticRun, plasticRun_no_recycl,
    plasticRun_has_plastic, hlen]
  simp

theorem closeAt_mem (cs : List Char) : ∀ (depth : Nat) (s : List Char),
    closeAt depth cs = some s → '}' ∈ cs := by
  induction cs with
  | nil => intro depth s h; simp [closeAt] at h
  | cons c cs ih =>
    intro depth s h
    by_cases hc : c = '}'
    · rw [hc]; exact List.mem_cons_self _ _
    · refine List.mem_cons_of_mem c ?_
      rw [closeAt] at h
      by_cases ho : c = '{'
      · rw [if_pos ho] at h
        cases hr : closeAt (depth + 1) cs with
        | none => rw [hr] at h; simp at h
        | some t => exact ih _ t hr
      · rw [if_neg ho, if_neg hc] at h
        cases hr : closeAt depth cs with
        | none => rw [hr] at h; simp at h
        | some t => exact ih _ t hr

/-- A text with a balanced span has an opening brace followed by a closing one. -/
theorem firstBalancedSpan_open (cs : List Char) : ∀ (s : List Char),
    firstBalancedSpan cs = some s →
      ∃ pre rest, cs = pre ++ '{' :: rest ∧ '{' ∉ pre ∧ '}' ∈ rest := by
  induction cs with
  | nil => intro s h; simp [firstBalancedSpan] at h
  | cons c cs ih =>
    intro s h
    rw [firstBalancedSpan] at h
    by_cases ho : c = '{'
    · rw [if_pos ho] at h
      refine ⟨[], cs, by rw [ho]; rfl, by simp, ?_⟩
      cases hr : closeAt 1 cs with
      | some t => exact closeAt_mem cs 1 t hr
      | none =>
        rw [hr] at h
        obtain ⟨pre, rest, he, _, hm⟩ := ih s h
        rw [he]
        simp [hm]
    · rw [if_neg ho] at h
      obtain ⟨pre, rest, he, hp, hm⟩ := ih s h
      refine ⟨c :: pre, rest, by rw [he]; rfl, ?_, hm⟩
      intro hmem
      rcases List.mem_cons.mp hmem with h1 | h1
      · exact ho h1.symm
      · exact hp h1

/-- A list containing `a` splits at the last occurrence of `a`. -/
theorem split_at_last (a : Char) (xs : List Char) (h : a ∈ xs) :
    ∃ mid post, xs = mid ++ a :: post ∧ a ∉ post := by
  have hr : a ∈ xs.reverse := List.mem_reverse.mpr h
  obtain ⟨as, bs, he, hn⟩ := List.eq_append_cons_of_mem hr
  refine ⟨bs.reverse, as.reverse, ?_, by simpa using hn⟩
  have := congrArg List.reverse he
  simpa using this

theorem dropWhile_skip (a : Char) (pre rest : List Char) (h : a ∉ pre) :
    (pre ++ a :: rest).dropWhile (fun c => c != a) = a :: rest := by
  induction pre with
  | nil => simp [List.dropWhile]
  | cons x xs ih =>
    have hx : x ≠ a := fun e => h (e ▸ List.mem_cons_self x xs)
    have hxs : a ∉ xs := fun m => h (List.mem_cons_of_mem x m)
    have hb : (x != a) = true := by simpa using hx
    rw [List.cons_append, List.dropWhile_cons, hb]
    simpa using ih hxs

/-- The span matched by the regular expression runs from the first opening
brace to the last closing brace. -/
theorem braceSpan_of_split (pre mid post : List Char)
    (hpre : '{' ∉ pre) (hpost : '}' ∉ post) :
    braceSpan (pre ++ '{' :: (mid ++ '}' :: post)) = some ('{' :: (mid ++ ['}'])) := by
  unfold braceSpan
  rw [dropWhile_skip '{' pre _ hpre]
  have hmem : '}' ∈ mid ++ '}' :: post := by simp
  simp only [hmem, if_true]
  have hrev : ('{' :: (mid ++ '}' :: post)).reverse =
      post.reverse ++ '}' :: (mid.reverse ++ ['{']) := by simp
  rw [hrev, dropWhile_skip '}' post.reverse _ (by simpa using hpost)]
  simp

/-- A page that goes through without a throw and leaves no ingredient moves
the loop on. -/
theorem scrapeLoop_continue (e : Engine) (fetch : Nat → Fetch) (s : Source)
    (rest : List Source) (i : Nat) (st : ScrapeRun)
    (h1 : (processSource e st.data (fetch i)).thrown = false)
    (h2 : (processSource e st.data (fetch i)).data.ingredients = []) :
    scrapeLoop e fetch (s :: rest) i st =
      scrapeLoop e fetch rest (i + 1)
        { data := (processSource e st.data (fetch i)).data, fetched := st.fetched ++ [i] } := by
  rw [scrapeLoop, h1, h2]
  simp

/-- A packaging text that mentions none of plastic, cardboard and glass, nor
"recycl", leaves the accumulator as it is. -/
theorem addPackaging_unguarded (e : Engine) (d : ScrapedData) (raw : String)
    (h0 : includes (toLowerCase (trim raw)) "recycl" = false)
    (h1 : includes (toLowerCase (trim raw)) "plastic" = false)
    (h2 : includes (toLowerCase (trim raw)) "cardboard" = false)
    (h3 : includes (toLowerCase (trim raw)) "glass" = false) :
    addPackaging e d raw = { data := d, thrown := false } := by
  simp [addPackaging, h0, h1, h2, h3]

/-! ## Properties of the service -/

/-- C1 (early stop missed after a throw): in the world `fetchOversized e` the
first source leaves the ingredient "Water" in the accumulator, but the spread
of its oversized packaging match throws, the inner `catch` continues past
the test of line 112, the second source is requested as well, and the
accumulator returned holds the ingredients of both sources. -/
theorem early_stop_skipped_after_throw (e : Engine) :
    (processSource e emptyData (fetchOversized e 0)).data.ingredients = ["Water"] ∧
      (processSource e emptyData (fetchOversized e 0)).thrown = true ∧
      fetchedSources e true (fetchOversized e) = [0, 1] ∧
      scrapeProductDetails e true (fetchOversized e) =
        some { ingredients := ["Water", "Salt"]
               packaging := { materials := [], recyclable := false }
               additionalInfo := ["Info"] } := by
  have h0 : processSource e emptyData (fetchOversized e 0) =
      { data := { ingredients := ["Water"]
                  packaging := { materials := [], recyclable := false }
                  additionalInfo := ["Info"] }
        thrown := true } := by
    show packagingPass e _ [plasticRun (e.maxArgs + 1)] = _
    rw [packagingPass, addPackaging_plasticRun]
    simp only [if_true]
    congr 1
  have h1 : processSource e
      { ingredients := ["Water"]
        packaging := { materials := [], recyclable := false }
        additionalInfo := ["Info"] } (fetchOversized e 1) =
      { data := { ingredients := ["Water", "Salt"]
                  packaging := { materials := [], recyclable := false }
                  additionalInfo := ["Info"] }
        thrown := false } := by
    show packagingPass e _ [] = _
    rw [packagingPass]
    congr 1
  have hrun : scrapeRun e (fetchOversized e) =
      { data := { ingredients := ["Water", "Salt"]
                  packaging := { materials := [], recyclable := false }
                  additionalInfo := ["Info"] }
        fetched := [0, 1] } := by
    unfold scrapeRun sources
    rw [scrapeLoop_thrown e _ _ _ 0 _ (by rw [h0]), h0,
      scrapeLoop_break e _ _ _ 1 _ (by rw [h1]) (by rw [h1]; decide), h1]
    rfl
  refine ⟨by rw [h0], by rw [h0], ?_, ?_⟩
  · simp [fetchedSources, hrun]
  · simp [scrapeProductDetails, hrun]

/-- C2: for every sequence of source outcomes `scrapeProductDetails` returns
an accumulator, and the ingredients list of any accumulator it returns
contains no two equal strings. -/
theorem scrapeProductDetails_ingredients_nodup (e : Engine) (fetch : Nat → Fetch) :
    (∃ d, scrapeProductDetails e true fetch = some d ∧ d.ingredients.Nodup) ∧
      (∀ enc d, scrapeProductDetails e enc fetch = some d → d.ingredients.Nodup) := by
  have h := scrapeLoop_nodup e fetch sources 0 { data := emptyData, fetched := [] }
    List.nodup_nil
  refine ⟨⟨(scrapeRun e fetch).data, rfl, h⟩, ?_⟩
  intro enc d hd
  cases enc with
  | false => simp [scrapeProductDetails] at hd
  | true =>
    simp only [scrapeProductDetails, if_true, Option.some.injEq] at hd
    rw [← hd]
    exact h

/-- C3: when the fetch of every source of the registry fails,
`scrapeProductDetails` returns an accumulator (not `null`) with empty
ingredients, additionalInfo and materials and `recyclable = false`, after
having requested all six sources. -/
theorem scrapeProductDetails_all_failed (e : Engine) (fetch : Nat → Fetch)
    (h : ∀ i, i < sources.length → fetch i = .failed) :
    ∃ d, scrapeProductDetails e true fetch = some d ∧ d.ingredients = [] ∧
      d.additionalInfo = [] ∧ d.packaging.materials = [] ∧
      d.packaging.recyclable = false ∧
      fetchedSources e true fetch = [0, 1, 2, 3, 4, 5] := by
  have hrun := scrapeLoop_all_failed e fetch sources 0 { data := emptyData, fetched := [] }
    (by intro j _ hj; exact h j (by simpa using hj))
  refine ⟨emptyData, ?_, rfl, rfl, rfl, rfl, ?_⟩
  · simp [scrapeProductDetails, scrapeRun, hrun]
  · simp only [fetchedSources, scrapeRun, hrun, if_true]; rfl

/-- Witness of C3: the world in which every request fails. -/
theorem scrapeProductDetails_all_failed_witness :
    ∃ d, scrapeProductDetails smallEngine true (fun _ => Fetch.failed) = some d ∧
      d.ingredients = [] ∧ d.additionalInfo = [] ∧ d.packaging.materials = [] ∧
      d.packaging.recyclable = false ∧
      fetchedSources smallEngine true (fun _ => Fetch.failed) = [0, 1, 2, 3, 4, 5] :=
  scrapeProductDetails_all_failed smallEngine (fun _ => Fetch.failed) (fun _ _ => rfl)

/-- C4: in `analyzeProduct`, after `scrapeProductDetails` has returned, the
fallback generative call is issued if and only if the returned value is
`null` or has no ingredient.  With at least one ingredient the object
returned carries exactly the ingredients, packaging and additionalInfo of
the accumulator; on the fallback path a returned object has no
additionalInfo field and carries the ingredients and packaging of the parsed
reply.  Once the identification reply has been parsed, `analyzeProduct` is
this choice applied to the value of `scrapeProductDetails`. -/
theorem resolveAttributes_fallback_iff (parse : String → Option JSValue)
    (basicInfo : JSValue) (scraped : Option ScrapedData) (detail : Option String) :
    ((resolveAttributes parse basicInfo scraped detail).fallbackCalled = true ↔
        (scraped = none ∨ ∃ d, scraped = some d ∧ d.ingredients = [])) ∧
      (∀ d, scraped = some d → d.ingredients ≠ [] →
        (resolveAttributes parse basicInfo scraped detail).result =
          .ok { name := basicInfo.prop "name"
                brand := basicInfo.prop "brand"
                ingredients := ofStrings d.ingredients
                packaging := ofPackaging d.packaging
                additionalInfo := some (ofStrings d.additionalInfo) }) ∧
      ((resolveAttributes parse basicInfo scraped detail).fallbackCalled = true →
        (∀ r, (resolveAttributes parse basicInfo scraped detail).result = .ok r →
          r.additionalInfo = none) ∧
        (∀ reply v, detail = some reply → parseDetail parse reply = .ok v →
          (resolveAttributes parse basicInfo scraped detail).result =
            .ok { name := basicInfo.prop "name"
                  brand := basicInfo.prop "brand"
                  ingredients := v.prop "ingredients"
                  packaging := v.prop "packaging"
                  additionalInfo := none })) ∧
      (∀ (e : Engine) (w : World) reply, w.image = true → w.basicText = some reply →
        parseBasicInfo parse reply = .ok basicInfo →
        analyzeProduct e parse w =
          resolveAttributes parse basicInfo
            (scrapeProductDetails e w.nameEncodes w.fetch) w.detailText) := by
  have hfb : (fallbackBranch parse basicInfo detail).fallbackCalled = true := by
    unfold fallbackBranch
    cases detail with
    | none => rfl
    | some reply => simp only; cases parseDetail parse reply <;> rfl
  have hnone : ∀ r, (fallbackBranch parse basicInfo detail).result = .ok r →
      r.additionalInfo = none := by
    intro r hr
    unfold fallbackBranch at hr
    cases detail with
    | none => simp at hr
    | some reply =>
      simp only at hr
      cases hpd : parseDetail parse reply with
      | error e => rw [hpd] at hr; simp at hr
      | ok v => rw [hpd] at hr; simp only [Except.ok.injEq] at hr; rw [← hr]
  have hval : ∀ reply v, detail = some reply → parseDetail parse reply = .ok v →
      (fallbackBranch parse basicInfo detail).result =
        .ok { name := basicInfo.prop "name"
              brand := basicInfo.prop "brand"
              ingredients := v.prop "ingredients"
              packaging := v.prop "packaging"
              additionalInfo := none } := by
    intro reply v hd hv
    subst hd
    simp only [fallbackBranch, hv]
  have han : ∀ (e : Engine) (w : World) reply, w.image = true → w.basicText = some reply →
      parseBasicInfo parse reply = .ok basicInfo →
      analyzeProduct e parse w =
        resolveAttributes parse basicInfo
          (scrapeProductDetails e w.nameEncodes w.fetch) w.detailText := by
    intro e w reply hi hb hp
    simp only [analyzeProduct, hi, hb, hp, if_true]
  cases scraped with
  | none =>
    refine ⟨?_, ?_, ?_, han⟩
    · simp [resolveAttributes, hfb]
    · intro d hd; simp at hd
    · intro _; exact ⟨hnone, hval⟩
  | some d =>
    by_cases he : d.ingredients = []
    · have hl : d.ingredients.length = 0 := by simp [he]
      refine ⟨?_, ?_, ?_, han⟩
      · simp [resolveAttributes, hl, hfb, he]
      · intro d1 hd hne
        simp only [Option.some.injEq] at hd
        subst hd
        exact absurd he hne
      · intro _
        simp only [resolveAttributes, hl, if_true]
        exact ⟨hnone, hval⟩
    · have hl : ¬ d.ingredients.length = 0 := by
        intro h; exact he (List.length_eq_zero.mp h)
      refine ⟨?_, ?_, ?_, han⟩
      · simp [resolveAttributes, hl, he]
      · intro d1 hd _
        simp only [Option.some.injEq] at hd
        subst hd
        simp [resolveAttributes, hl]
      · intro hc
        simp [resolveAttributes, hl] at hc

/-- C5: when every source before source `b` fails to fetch and the page of
source `b` offers exactly the ingredient fragment "Water, Glycerin", no
product-info fragment and exactly the packaging fragment
"recyclable plastic bottle", `scrapeProductDetails` returns exactly
ingredients ["Water, Glycerin"], materials ["plastic"], recyclable true and
additionalInfo []; the failed sources contribute nothing, and the sources
requested are those up to `b`. -/
theorem scrapeProductDetails_scenario (e : Engine) (fetch : Nat → Fetch) (b : Nat)
    (p : Fragments)
    (hb : b < sources.length) (hfail : ∀ j, j < b → fetch j = .failed)
    (hpage : fetch b = .ok p)
    (hing : fragments p.ingredients = ["Water, Glycerin"])
    (hinfo : fragments p.productInfo = [])
    (hpack : fragments p.packaging = ["recyclable plastic bottle"]) :
    scrapeProductDetails e true fetch =
        some { ingredients := ["Water, Glycerin"]
               packaging := { materials := ["plastic"], recyclable := true }
               additionalInfo := [] } ∧
      fetchedSources e true fetch = List.range (b + 1) := by
  have hm : matchMaterials (toLowerCase "recyclable plastic bottle") = ["plastic"] := by
    decide
  have hr : includes (toLowerCase "recyclable plastic bottle") "recycl" = true := by decide
  have hg : includes (toLowerCase "recyclable plastic bottle") "plastic" = true := by decide
  have hval : processSource e emptyData (fetch b) =
      { data := { ingredients := ["Water, Glycerin"]
                  packaging := { materials := ["plastic"], recyclable := true }
                  additionalInfo := [] }
        thrown := false } := by
    rw [hpage]
    show processPage e emptyData p = _
    rw [processPage_fragments, hing, hinfo, hpack]
    have hle : [("plastic" : String)].length ≤ e.maxArgs := e.one_le_maxArgs
    simp only [classifyPass, classifyText, hm, hr, hg, hle, Bool.true_or, if_true]
    decide
  obtain ⟨s, rest, hdrop⟩ : ∃ s rest, sources.drop b = s :: rest := by
    cases hd : sources.drop b with
    | nil =>
      have := congrArg List.length hd
      rw [List.length_drop] at this
      simp only [List.length_nil] at this
      omega
    | cons s rest => exact ⟨s, rest, rfl⟩
  have hrun : scrapeRun e fetch =
      { data := { ingredients := ["Water, Glycerin"]
                  packaging := { materials := ["plastic"], recyclable := true }
                  additionalInfo := [] }
        fetched := List.range (b + 1) } := by
    unfold scrapeRun
    rw [scrapeLoop_skip_failed e fetch b sources 0 _ (Nat.le_of_lt hb)
      (fun j _ hj => hfail j (by omega)), hdrop]
    simp only [Nat.zero_add]
    rw [scrapeLoop_break e fetch s rest b _ (by rw [hval]) (by rw [hval]; decide), hval]
    simp [List.range_succ, List.range_eq_range']
  constructor
  · simp [scrapeProductDetails, hrun]
  · simp [fetchedSources, hrun]

/-- Witness of C5: the first source fails and the second serves the page of
the scenario, with white space around its texts. -/
theorem scrapeProductDetails_scenario_witness :
    scrapeProductDetails smallEngine true fetchSpaced =
        some { ingredients := ["Water, Glycerin"]
               packaging := { materials := ["plastic"], recyclable := true }
               additionalInfo := [] } ∧
      fetchedSources smallEngine true fetchSpaced = List.range (1 + 1) :=
  scrapeProductDetails_scenario smallEngine fetchSpaced 1 pageSpaced
    (by decide) (by decide) (by decide) (by decide) (by decide) (by decide)

/-- C6 (guard of the materials scan): a packaging fragment that mentions
metal or paper but none of plastic, cardboard and glass contributes no
material, although the scan of the same lower-cased text finds the token. -/
theorem materials_guard_drops_metal_and_paper (e : Engine) :
    matchMaterials (toLowerCase (trim "Metal can")) = ["metal"] ∧
      (addPackaging e emptyData "Metal can").data.packaging.materials = [] ∧
      matchMaterials (toLowerCase (trim "paper wrap")) = ["paper"] ∧
      (addPackaging e emptyData "paper wrap").data.packaging.materials = [] ∧
      scrapeProductDetails e true (fun i =>
        if i = 0 then .ok { ingredients := [], productInfo := [], packaging := ["Metal can"] }
        else .failed) = some emptyData := by
  have hmetal : addPackaging e emptyData "Metal can" = { data := emptyData, thrown := false } :=
    addPackaging_unguarded e emptyData "Metal can"
      (by decide) (by decide) (by decide) (by decide)
  have hpaper : addPackaging e emptyData "paper wrap" = { data := emptyData, thrown := false } :=
    addPackaging_unguarded e emptyData "paper wrap"
      (by decide) (by decide) (by decide) (by decide)
  refine ⟨by decide, by rw [hmetal]; rfl, by decide, by rw [hpaper]; rfl, ?_⟩
  have h0 : processSource e emptyData
      ((fun i => if i = 0 then
          Fetch.ok { ingredients := [], productInfo := [], packaging := ["Metal can"] }
        else Fetch.failed) 0) = { data := emptyData, thrown := false } := by
    show packagingPass e emptyData ["Metal can"] = _
    rw [packagingPass, hmetal]
    rfl
  simp only [scrapeProductDetails, scrapeRun, sources, if_true]
  rw [scrapeLoop_continue e _ _ _ 0 _ (by rw [h0]) (by rw [h0]; rfl), h0,
    scrapeLoop_all_failed e _ _ 1 _ (fun j hj _ => by
      have : j ≠ 0 := by omega
      simp [this])]

/-- C7 (keyword rule missed after a throw): in the world
`fetchRecyclableLate e` the page of the first source is loaded and its second
packaging text, "recyclable", contains "recycl" after trimming and
lower-casing and would set the flag if the callback reached it; but the
spread of the first packaging text throws, the `.each` loop ends there, and
the accumulator returned has `recyclable = false`. -/
theorem recyclable_missed_after_throw (e : Engine) :
    includes (toLowerCase (trim "recyclable")) "recycl" = true ∧
      (addPackaging e emptyData "recyclable").data.packaging.recyclable = true ∧
      (addPackaging e emptyData "100% RECYCLABLE").data.packaging.recyclable = true ∧
      fetchedSources e true (fetchRecyclableLate e) = [0, 1, 2, 3, 4, 5] ∧
      scrapeProductDetails e true (fetchRecyclableLate e) =
        some { ingredients := []
               packaging := { materials := [], recyclable := false }
               additionalInfo := [] } := by
  have h0 : processSource e emptyData (fetchRecyclableLate e 0) =
      { data := emptyData, thrown := true } := by
    show packagingPass e emptyData [plasticRun (e.maxArgs + 1), "recyclable"] = _
    rw [packagingPass, addPackaging_plasticRun]
    rfl
  have hrun : scrapeRun e (fetchRecyclableLate e) =
      { data := emptyData, fetched := [0, 1, 2, 3, 4, 5] } := by
    unfold scrapeRun sources
    rw [scrapeLoop_thrown e _ _ _ 0 _ (by rw [h0]), h0,
      scrapeLoop_all_failed e _ _ 1 _ (fun j hj _ => by
        have : j ≠ 0 := by omega
        simp [fetchRecyclableLate, this])]
    rfl
  refine ⟨by decide, ?_, ?_, ?_, ?_⟩
  · rw [addPackaging_recyclable]
    have : includes (toLowerCase (trim "recyclable")) "recycl" = true := by decide
    rw [this]; rfl
  · rw [addPackaging_recyclable]
    have : includes (toLowerCase (trim "100% RECYCLABLE")) "recycl" = true := by decide
    rw [this]; rfl
  · simp [fetchedSources, hrun]
  · simp [scrapeProductDetails, hrun, emptyData]

/-- C8 (monotonicity of `recyclable`): from an accumulator whose recyclable
flag is set, the flag is still set after any further fragment of any of the
three kinds (whether or not its callback throws), after the rest of any
packaging loop, after any further source (failed or not), and at the end of
the rest of the loop, whatever sources remain. -/
theorem recyclable_monotone (e : Engine) (d : ScrapedData)
    (h : d.packaging.recyclable = true) :
    (∀ raw, (addIngredient d raw).packaging.recyclable = true) ∧
      (∀ raw, (addInfo d raw).packaging.recyclable = true) ∧
      (∀ raw, (addPackaging e d raw).data.packaging.recyclable = true) ∧
      (∀ raws, (packagingPass e d raws).data.packaging.recyclable = true) ∧
      (∀ o, (processSource e d o).data.packaging.recyclable = true) ∧
      (∀ fetch srcs i log,
        (scrapeLoop e fetch srcs i { data := d, fetched := log }).data.packaging.recyclable
          = true) := by
  refine ⟨?_, ?_, ?_, ?_, ?_, ?_⟩
  · intro raw; rw [addIngredient_packaging]; exact h
  · intro raw; rw [addInfo_packaging]; exact h
  · intro raw; rw [addPackaging_recyclable, h]; rfl
  · intro raws; exact packagingPass_recyclable e raws d h
  · intro o; exact processSource_recyclable e d o h
  · intro fetch srcs i log
    exact scrapeLoop_recyclable e fetch srcs i _ h

/-- Witness of C8 at `recycledData`. -/
theorem recyclable_monotone_witness :
    (∀ raw, (addIngredient recycledData raw).packaging.recyclable = true) ∧
      (∀ raw, (addInfo recycledData raw).packaging.recyclable = true) ∧
      (∀ raw, (addPackaging smallEngine recycledData raw).data.packaging.recyclable = true) ∧
      (∀ raws, (packagingPass smallEngine recycledData raws).data.packaging.recyclable
        = true) ∧
      (∀ o, (processSource smallEngine recycledData o).data.packaging.recyclable = true) ∧
      (∀ fetch srcs i log,
        (scrapeLoop smallEngine fetch srcs i
          { data := recycledData, fetched := log }).data.packaging.recyclable = true) :=
  recyclable_monotone smallEngine recycledData rfl

/-- C9 refuted as stated: on the reply of the example the first balanced
span is the leading object, but the span extracted is the whole reply, and
the parsing step fails with a syntax error instead of yielding the object. -/
theorem parseDetail_not_first_balanced :
    firstBalancedSpan (trim noteReply).data = some noteObject.data ∧
      extractJson (trim noteReply) = some noteReply ∧
      extractJson (trim noteReply) ≠ (firstBalancedSpan (trim noteReply).data).map String.mk ∧
      (parseNote noteObject).isSome = true ∧
      parseDetail parseNote noteReply = .error .syntaxError :=
  ⟨by decide, by decide, by decide, by decide, by rfl⟩

/-- C9, as the code has it: for every fallback reply whose trimmed text
contains a balanced brace span, the span extracted runs from the first
opening brace of the text to its last closing brace, and exactly this span
is handed to `JSON.parse`, whose value or syntax error is the outcome of the
parsing step. -/
theorem parseDetail_greedy_span (parse : String → Option JSValue) (reply : String)
    (s : List Char) (hbal : firstBalancedSpan (trim reply).data = some s) :
    ∃ pre mid post,
      (trim reply).data = pre ++ '{' :: (mid ++ '}' :: post) ∧ '{' ∉ pre ∧ '}' ∉ post ∧
      extractJson (trim reply) = some (String.mk ('{' :: (mid ++ ['}']))) ∧
      parseDetail parse reply =
        (match parse (String.mk ('{' :: (mid ++ ['}']))) with
          | none => .error .syntaxError
          | some v => .ok v) := by
  obtain ⟨pre, rest, hsplit, hpre, hmem⟩ := firstBalancedSpan_open _ s hbal
  obtain ⟨mid, post, hrest, hpost⟩ := split_at_last '}' rest hmem
  subst hrest
  have hx : extractJson (trim reply) = some (String.mk ('{' :: (mid ++ ['}']))) := by
    unfold extractJson
    rw [hsplit, braceSpan_of_split pre mid post hpre hpost]
    rfl
  refine ⟨pre, mid, post, hsplit, hpre, hpost, hx, ?_⟩
  simp only [parseDetail, hx]

/-- Witness of C9 as amended, on the reply of the example, whose first
balanced span is the leading object. -/
theorem parseDetail_greedy_span_witness :
    ∃ pre mid post,
      (trim noteReply).data = pre ++ '{' :: (mid ++ '}' :: post) ∧ '{' ∉ pre ∧ '}' ∉ post ∧
      extractJson (trim noteReply) = some (String.mk ('{' :: (mid ++ ['}']))) ∧
      parseDetail parseNote noteReply =
        (match parseNote (String.mk ('{' :: (mid ++ ['}']))) with
          | none => .error .syntaxError
          | some v => .ok v) :=
  parseDetail_greedy_span parseNote noteReply noteObject.data (by decide)

/-- C10 (missing guard of the fallback parser): on a fallback reply without
any brace the parsing step of the fallback throws a `TypeError`, where the
parser of the identification reply throws the "Invalid response format"
error on the same text; no attribute set is returned. -/
theorem parseDetail_no_span_typeError (parse : String → Option JSValue)
    (basicInfo : JSValue) :
    parseDetail parse "I cannot tell from this image." = .error .typeError ∧
      parseBasicInfo parse "I cannot tell from this image." = .error .invalidResponseFormat ∧
      (resolveAttributes parse basicInfo none
        (some "I cannot tell from this image.")).result = .error .typeError := by
  have hx : extractJson (trim "I cannot tell from this image.") = none := by decide
  refine ⟨?_, ?_, ?_⟩
  · simp only [parseDetail, hx]
  · simp only [parseBasicInfo, hx]
  · simp only [resolveAttributes, fallbackBranch, parseDetail, hx]

end EcoSnap
